import Mathlib

/-!
Shallow embedding of `src/aql_miracosta.py` (a single-page Q&A app built on
a hosted vector index and a hosted chat-completion model).

Modelling conventions:
* Python strings are `List Char`; `str.lower()` is a character-wise map.
* Python float scores are modelled as rationals; the literal `0.1` is `1/10`.
* The three outbound HTTP calls are modelled by explicit environment records
  (`SearchEnv`, `ChatEnv`) holding the responses the hosted services return,
  so the pure control flow around them can be stated and proved.
* `matches.sort(key=lambda x: x["score"], reverse=True)` is the unique stable
  descending sort; it is modelled by `List.insertionSort` over the relation
  `scoreGE a b := b.score <= a.score`, which is a stable sort for that
  relation (permutation + sortedness + stability determine the result).
-/

namespace AQLMiracosta

set_option allowUnsafeReducibility true

attribute [local semireducible] Rat.add Rat.mul Rat.inv Rat.sub

/-- Python strings, modelled as lists of characters. -/
abbrev Str := List Char

/-- Python `str.lower()`: character-wise lowercasing. -/
def lower (s : Str) : Str := s.map Char.toLower

/-- `leadsWith p s` is true when the string `s` starts with the pattern `p`. -/
def leadsWith : Str → Str → Bool
  | [], _ => true
  | _ :: _, [] => false
  | p :: ps, c :: cs => p == c && leadsWith ps cs

/-- Python substring containment `pat in s` (true for the empty pattern). -/
def hasSub (pat : Str) : Str → Bool
  | [] => pat.isEmpty
  | c :: cs => leadsWith pat (c :: cs) || hasSub pat cs

/-- Python `s.endswith(suf)`. -/
def endsWith (s suf : Str) : Bool := leadsWith suf.reverse s.reverse

/-- Python `str.split()` with no argument: split on runs of whitespace,
discarding empty pieces. -/
def splitWS (s : Str) : List Str :=
  (s.splitOnP Char.isWhitespace).filter (fun w => !w.isEmpty)

/-- The `metadata` mapping of a Pinecone match; only the fields the program
reads are modelled, each optional because Python uses `.get` with defaults. -/
structure Metadata where
  text_content : Option Str
  url : Option Str
  title : Option Str
deriving DecidableEq

/-- One candidate match returned by the vector index: a similarity `score`
and an optional `metadata` mapping (read via `match.get("metadata", ...)`). -/
structure Match where
  score : ℚ
  metadata : Option Metadata
deriving DecidableEq

/-- Line 170: `match.get("metadata", ...).get("text_content", "")`,
the raw passage text with the empty string as double default. -/
def rawText (m : Match) : Str :=
  match m.metadata with
  | none => []
  | some md => md.text_content.getD []

/-- Lines 132-139: `keywords = query.lower().split()` followed by three
conditional `extend` calls with fixed trigger clusters. The result is a
Python list, so duplicates are kept. -/
def extractKeywords (query : Str) : List Str :=
  ((splitWS (lower query)
    ++ (if hasSub ("wellness".toList) (lower query) || hasSub ("health".toList) (lower query)
        then [("timelycare".toList), ("wellness".toList), ("services".toList), ("health".toList)]
        else []))
    ++ (if hasSub ("program".toList) (lower query) || hasSub ("study".toList) (lower query)
        then [("certificate".toList), ("program".toList), ("course".toList)]
        else []))
    ++ (if hasSub ("free".toList) (lower query) || hasSub ("cost".toList) (lower query)
        then [("tuition".toList), ("free".toList), ("cost".toList), ("financial".toList)]
        else [])

/-- Line 173: `sum(1 for keyword in keywords if keyword in text)` -
each entry of the keyword list found in `text` counts once. -/
def countMatches (keywords : List Str) (text : Str) : ℕ :=
  List.countP (fun kw => hasSub kw text) keywords

/-- Lines 170-177: lower the text, count keyword hits, add `0.1` per hit and
cap the score at `1.0`; only the `score` field of the match changes. -/
def boostMatch (keywords : List Str) (m : Match) : Match :=
  { m with
    score := min (m.score + (countMatches keywords (lower (rawText m)) : ℚ) * (1/10)) 1 }

/-- Lines 169-177: the boost loop over all matches. -/
def boostAll (keywords : List Str) (ms : List Match) : List Match :=
  ms.map (boostMatch keywords)

/-- The comparison used by `sort(key=lambda x: x["score"], reverse=True)`:
`a` may come before `b` when its score is at least that of `b`. -/
def scoreGE (a b : Match) : Prop := b.score ≤ a.score

instance : DecidableRel scoreGE :=
  fun a b => inferInstanceAs (Decidable (b.score ≤ a.score))

instance : IsTotal Match scoreGE := ⟨fun a b => le_total b.score a.score⟩

instance : IsTrans Match scoreGE := ⟨fun _ _ _ hab hbc => le_trans hbc hab⟩

/-- Line 180: the stable descending sort by boosted score. -/
def sortStep (ms : List Match) : List Match := List.insertionSort scoreGE ms

/-- Lines 169-183: the re-rank step of `hybrid_search`: boost every candidate,
re-sort by adjusted score descending (stably), return the first `top_k`. -/
def rerank (keywords : List Str) (ms : List Match) (k : ℕ) : List Match :=
  (sortStep (boostAll keywords ms)).take k

/-- Lines 121-124: append the fixed `/query` suffix when it is absent. -/
def normalizeUrl (base : Str) : Str :=
  if endsWith base ("/query".toList) then base else base ++ "/query".toList

/-- The responses the two retrieval calls of `hybrid_search` produce:
`embedding` is the value returned by `get_embedding` (`none` models the
`None` returned on an OpenAI error), and `response` is the Pinecone call
(`none` models a raised transport exception caught by the `except` branch,
otherwise the HTTP status and the parsed `matches` list). -/
structure SearchEnv where
  embedding : Option (List ℚ)
  response : Option (ℕ × List Match)
deriving DecidableEq

/-- Python truthiness of the embedding at line 128 (`if not embedding`):
both `None` and the empty list are falsy. -/
def truthyEmbedding : Option (List ℚ) → Bool
  | some (_ :: _) => true
  | some [] => false
  | none => false

/-- Lines 119-187, `hybrid_search`: on a falsy embedding return `[]`; on a
transport exception or a non-200 Pinecone status return `[]`; otherwise
boost, sort and truncate the returned matches. The normalized URL affects
only which endpoint is called, not the returned value. -/
def hybrid_search (query : Str) (env : SearchEnv) (k : ℕ) : List Match :=
  if truthyEmbedding env.embedding = false then []
  else
    match env.response with
    | none => []
    | some (status, ms) =>
        if status ≠ 200 then [] else rerank (extractKeywords query) ms k

/-- The chat-completion response: HTTP status and the extracted
`choices[0].message.content` text. -/
structure ChatEnv where
  status : ℕ
  content : Str
deriving DecidableEq

/-- The ASCII apostrophe character, code point 39. -/
def apos : Char := Char.ofNat 39

/-- Line 220: the literal fallback answer returned on a generation error
(the source literal contains an apostrophe, spelled here via `apos`). -/
def fallbackAnswer : Str :=
  "Sorry, I couldn".toList ++ apos :: "t generate an answer.".toList

/-- Lines 190-223, `generate_answer`: on a non-200 status return the fixed
fallback string; otherwise return the content of the first choice. -/
def generate_answer (question context : Str) (env : ChatEnv) : Str :=
  if env.status ≠ 200 then fallbackAnswer else env.content

/-- Line 271: `metadata.get("text_content", "No text available")` with the
`metadata.get("metadata", ...)` default applied first. -/
def docText (m : Match) : Str :=
  match m.metadata with
  | none => "No text available".toList
  | some md => md.text_content.getD ("No text available".toList)

/-- Line 272: `metadata.get("url", "")`. -/
def docUrl (m : Match) : Str :=
  match m.metadata with
  | none => []
  | some md => md.url.getD []

/-- Line 273: `metadata.get("title", "")`. -/
def docTitle (m : Match) : Str :=
  match m.metadata with
  | none => []
  | some md => md.title.getD []

/-- Lines 266-276: concatenate the numbered document blocks. -/
def buildContext (ms : List Match) : Str :=
  (ms.enum.map (fun p =>
    "\nDocument ".toList ++ (Nat.repr (p.1 + 1)).toList ++ ":\n".toList
      ++ docText p.2 ++ "\n".toList)).flatten

/-- The user-visible outcome of one submit interaction. -/
inductive Outcome where
  | promptForInput : Outcome
  | noInfo : Outcome
  | answered (answer : Str) (sources : List (Str × Str)) : Outcome
deriving DecidableEq

/-- True exactly when the outcome involved a chat-completion call. -/
def generationCalled : Outcome → Bool
  | Outcome.answered _ _ => true
  | _ => false

/-- Lines 253-289, the submit branch of the main interface: an empty question
is rejected with a warning before any network call; an empty match list stops
with the no-relevant-information message before any generation call; otherwise
the context is built, an answer generated and sources listed. -/
def runSubmit (question : Str) (env : SearchEnv) (chat : ChatEnv) : Outcome :=
  if question.isEmpty then Outcome.promptForInput
  else
    if (hybrid_search question env 5).isEmpty then Outcome.noInfo
    else
      Outcome.answered
        (generate_answer question (buildContext (hybrid_search question env 5)) chat)
        ((hybrid_search question env 5).map (fun m => (docTitle m, docUrl m)))

/-! ### Helper lemmas -/

/-- A string starts with itself followed by anything. -/
theorem leadsWith_self_append : ∀ (p t : Str), leadsWith p (p ++ t) = true
  | [], _ => rfl
  | c :: cs, t => by simp [leadsWith, leadsWith_self_append cs t]

/-- Appending a suffix makes `endsWith` that suffix hold. -/
theorem endsWith_append (x suf : Str) : endsWith (x ++ suf) suf = true := by
  unfold endsWith
  rw [List.reverse_append]
  exact leadsWith_self_append suf.reverse x.reverse

/-- A non-empty pattern is never a substring of the empty string. -/
theorem hasSub_nil_eq_false {kw : Str} (h : kw ≠ []) : hasSub kw [] = false := by
  cases kw with
  | nil => exact absurd rfl h
  | cons c cs => rfl

/-- Mapping a fixpoint function over a list is the identity. -/
theorem boostAll_eq_self {keywords : List Str} {l : List Match}
    (h : ∀ m ∈ l, boostMatch keywords m = m) : boostAll keywords l = l := by
  unfold boostAll
  rw [List.map_congr_left h]
  exact List.map_id' l

/-! ### Claims -/

/-- Normalization leaves a base that already carries the suffix unchanged. -/
theorem normalizeUrl_of_endsWith {base : Str}
    (h : endsWith base ("/query".toList) = true) : normalizeUrl base = base :=
  if_pos h

/-- The normalized URL always ends with the fixed suffix. -/
theorem normalizeUrl_endsWith (base : Str) :
    endsWith (normalizeUrl base) ("/query".toList) = true := by
  unfold normalizeUrl
  by_cases h : endsWith base ("/query".toList) = true
  · rw [if_pos h]; exact h
  · rw [if_neg h]; exact endsWith_append base _

/-- C9: endpoint normalization appends the fixed suffix exactly when absent:
the normalized URL always ends with the suffix, a base already ending in it
passes through unchanged, the operation is idempotent, and otherwise the
suffix is appended. -/
theorem normalizeUrl_correct (base : Str) :
    endsWith (normalizeUrl base) ("/query".toList) = true
    ∧ (endsWith base ("/query".toList) = true → normalizeUrl base = base)
    ∧ normalizeUrl (normalizeUrl base) = normalizeUrl base
    ∧ (endsWith base ("/query".toList) = false
        → normalizeUrl base = base ++ "/query".toList) := by
  refine ⟨normalizeUrl_endsWith base, fun h => normalizeUrl_of_endsWith h,
    normalizeUrl_of_endsWith (normalizeUrl_endsWith base), fun h => ?_⟩
  unfold normalizeUrl
  rw [if_neg]
  exact (Bool.not_eq_true _).mpr h

/-- C7 (amended): on any non-success chat-completion status,
`generate_answer` returns the fixed literal fallback string
(in the source: Sorry, I could not generate an answer, spelled with an
apostrophe contraction) instead of raising. -/
theorem generate_answer_fallback (question context : Str) (env : ChatEnv)
    (h : env.status ≠ 200) :
    generate_answer question context env = fallbackAnswer := by
  simp [generate_answer, h]

/-- C7 witness: the fallback is returned at the concrete status 500. -/
theorem generate_answer_fallback_witness :
    (500 : ℕ) ≠ 200 ∧ generate_answer [] [] ⟨500, []⟩ = fallbackAnswer :=
  ⟨by decide, generate_answer_fallback [] [] ⟨500, []⟩ (by decide)⟩

/-- C7 counterexample: the fallback literal is not the exact string quoted in
the claim; at status 500 the returned string differs from it. -/
theorem generate_answer_not_quoted_literal :
    generate_answer [] [] ⟨500, []⟩ ≠ ("could not generate an answer").toList := by
  decide

/-- C5: whenever the lowered query contains wellness or health as a
substring (which captures any letter case of the trigger words), the
extracted keyword list contains all four cluster terms. -/
theorem wellness_keywords_superset (query : Str)
    (h : hasSub ("wellness".toList) (lower query) = true
       ∨ hasSub ("health".toList) (lower query) = true) :
    ("timelycare".toList) ∈ extractKeywords query
    ∧ ("wellness".toList) ∈ extractKeywords query
    ∧ ("services".toList) ∈ extractKeywords query
    ∧ ("health".toList) ∈ extractKeywords query := by
  refine ⟨?_, ?_, ?_, ?_⟩ <;>
    · simp [extractKeywords, List.mem_append]
      exact Or.inr h

/-- C5 witness: a concrete upper-case query triggers the cluster. -/
theorem wellness_keywords_superset_witness :
    (hasSub ("wellness".toList) (lower ("WELLNESS check".toList)) = true
      ∨ hasSub ("health".toList) (lower ("WELLNESS check".toList)) = true)
    ∧ (("timelycare".toList) ∈ extractKeywords ("WELLNESS check".toList)
      ∧ ("wellness".toList) ∈ extractKeywords ("WELLNESS check".toList)
      ∧ ("services".toList) ∈ extractKeywords ("WELLNESS check".toList)
      ∧ ("health".toList) ∈ extractKeywords ("WELLNESS check".toList)) :=
  ⟨Or.inl (by decide),
   wellness_keywords_superset ("WELLNESS check".toList) (Or.inl (by decide))⟩

/-- C6: when the embedding step fails (returns none), `hybrid_search`
returns the empty list rather than failing, and on a non-empty question the
submit flow shows the no-relevant-information outcome and never reaches the
answer-generation call. -/
theorem embedding_failure_soft (query : Str) (env : SearchEnv) (chat : ChatEnv)
    (k : ℕ) (hemb : env.embedding = none) (hq : query ≠ []) :
    hybrid_search query env k = []
    ∧ runSubmit query env chat = Outcome.noInfo
    ∧ generationCalled (runSubmit query env chat) = false := by
  have h1 : ∀ j, hybrid_search query env j = [] := by
    intro j
    simp [hybrid_search, hemb, truthyEmbedding]
  have h2 : runSubmit query env chat = Outcome.noInfo := by
    simp [runSubmit, h1, List.isEmpty_iff, hq]
  exact ⟨h1 k, h2, by simp [h2, generationCalled]⟩

/-- C6 witness: a concrete failed-embedding environment yields the empty
result and the no-relevant-information outcome. -/
theorem embedding_failure_soft_witness :
    ((⟨none, some (200, [])⟩ : SearchEnv).embedding = none
      ∧ ("hi".toList ≠ ([] : Str)))
    ∧ (hybrid_search ("hi".toList) ⟨none, some (200, [])⟩ 5 = []
      ∧ runSubmit ("hi".toList) ⟨none, some (200, [])⟩ ⟨200, []⟩ = Outcome.noInfo
      ∧ generationCalled
          (runSubmit ("hi".toList) ⟨none, some (200, [])⟩ ⟨200, []⟩) = false) :=
  ⟨⟨rfl, by decide⟩,
   embedding_failure_soft ("hi".toList) ⟨none, some (200, [])⟩ ⟨200, []⟩ 5
     rfl (by decide)⟩

/-- C1: the re-rank step sorts the boosted candidates by score descending,
the sort is a permutation of the boosted list that is stable on equal
scores (pairs keep their original relative order), the result is exactly
the first `top_k` entries of the sorted sequence, and its length is at most
the minimum of `top_k` and the input length. -/
theorem rerank_sorted_stable_truncated (keywords : List Str) (ms : List Match)
    (k : ℕ) :
    rerank keywords ms k = (sortStep (boostAll keywords ms)).take k
    ∧ List.Perm (sortStep (boostAll keywords ms)) (boostAll keywords ms)
    ∧ List.Sorted scoreGE (sortStep (boostAll keywords ms))
    ∧ (∀ a b : Match, List.Sublist [a, b] (boostAll keywords ms) → a.score = b.score
        → List.Sublist [a, b] (sortStep (boostAll keywords ms)))
    ∧ (rerank keywords ms k).length ≤ min k ms.length := by
  refine ⟨rfl, List.perm_insertionSort scoreGE _,
    List.sorted_insertionSort scoreGE _,
    fun a b hab heq => List.pair_sublist_insertionSort (le_of_eq heq.symm) hab,
    le_of_eq ?_⟩
  simp [rerank, sortStep, boostAll, List.length_take]

/-- C2: the boosted score is the raw score plus one tenth per keyword hit,
capped at one; for a raw score in the unit interval the boosted score stays
in the unit interval and never drops below the raw score. -/
theorem boostMatch_score_bounds (keywords : List Str) (m : Match)
    (h0 : 0 ≤ m.score) (h1 : m.score ≤ 1) :
    (boostMatch keywords m).score
      = min (m.score + (countMatches keywords (lower (rawText m)) : ℚ) * (1/10)) 1
    ∧ 0 ≤ (boostMatch keywords m).score
    ∧ (boostMatch keywords m).score ≤ 1
    ∧ m.score ≤ (boostMatch keywords m).score := by
  have hc : (0 : ℚ) ≤ (countMatches keywords (lower (rawText m)) : ℚ) * (1/10) := by
    positivity
  refine ⟨rfl, ?_, ?_, ?_⟩
  · exact le_min (add_nonneg h0 hc) (by norm_num)
  · exact min_le_right _ _
  · exact le_min (le_add_of_nonneg_right hc) h1

/-- C2 witness: concrete bounds at score one half with no keywords. -/
theorem boostMatch_score_bounds_witness :
    (0 ≤ (⟨1/2, none⟩ : Match).score ∧ (⟨1/2, none⟩ : Match).score ≤ 1)
    ∧ ((boostMatch [] (⟨1/2, none⟩ : Match)).score
        = min ((⟨1/2, none⟩ : Match).score
            + (countMatches [] (lower (rawText (⟨1/2, none⟩ : Match))) : ℚ) * (1/10)) 1
      ∧ 0 ≤ (boostMatch [] (⟨1/2, none⟩ : Match)).score
      ∧ (boostMatch [] (⟨1/2, none⟩ : Match)).score ≤ 1
      ∧ (⟨1/2, none⟩ : Match).score ≤ (boostMatch [] (⟨1/2, none⟩ : Match)).score) :=
  ⟨⟨by norm_num, by norm_num⟩,
   boostMatch_score_bounds [] ⟨1/2, none⟩ (by norm_num) (by norm_num)⟩

/-- C8: the boost loop changes only the score: the metadata of the boosted
list is pointwise that of the input, and every candidate of the re-ranked
output is the boost of some input candidate with identical metadata. -/
theorem rerank_metadata_frame (keywords : List Str) (ms : List Match) (k : ℕ) :
    (boostAll keywords ms).map Match.metadata = ms.map Match.metadata
    ∧ ∀ m ∈ rerank keywords ms k, ∃ m0 ∈ ms,
        m = boostMatch keywords m0 ∧ m.metadata = m0.metadata := by
  constructor
  · unfold boostAll
    rw [List.map_map]
    rfl
  · intro m hm
    have hm1 : m ∈ sortStep (boostAll keywords ms) :=
      (List.take_sublist _ _).subset hm
    have hm2 : m ∈ boostAll keywords ms :=
      (List.perm_insertionSort scoreGE _).subset hm1
    rcases List.mem_map.mp hm2 with ⟨m0, hm0, rfl⟩
    exact ⟨m0, hm0, rfl, rfl⟩

/-- C10: a candidate with missing metadata or missing text field is scored
over the empty text: no non-empty keyword matches, the score becomes the raw
score capped at one, no failure occurs, and for a positive `top_k` a lone
such candidate still appears in the re-ranked output. -/
theorem missing_text_safe (keywords : List Str) (m : Match) (k : ℕ)
    (hmd : m.metadata = none
      ∨ ∃ md, m.metadata = some md ∧ md.text_content = none)
    (hkw : ∀ kw ∈ keywords, kw ≠ ([] : Str)) (hk : 1 ≤ k) :
    rawText m = []
    ∧ countMatches keywords (lower (rawText m)) = 0
    ∧ (boostMatch keywords m).score = min m.score 1
    ∧ rerank keywords [m] k = [boostMatch keywords m] := by
  have ht : rawText m = [] := by
    rcases hmd with h | ⟨md, hmd, htc⟩
    · simp [rawText, h]
    · simp [rawText, hmd, htc]
  have hcnt : countMatches keywords (lower (rawText m)) = 0 := by
    rw [ht]
    refine List.countP_eq_zero.mpr fun kw hmem => ?_
    rw [show lower [] = [] from rfl, hasSub_nil_eq_false (hkw kw hmem)]
    exact Bool.false_ne_true
  have hb : (boostMatch keywords m).score = min m.score 1 := by
    simp [boostMatch, hcnt]
  have hr : rerank keywords [m] k = [boostMatch keywords m] := by
    cases k with
    | zero => omega
    | succ n => simp [rerank, boostAll, sortStep]
  exact ⟨ht, hcnt, hb, hr⟩

/-- C10 witness: a concrete candidate with no metadata survives re-ranking
with its raw score. -/
theorem missing_text_safe_witness :
    (((⟨1/2, none⟩ : Match).metadata = none
        ∨ ∃ md, (⟨1/2, none⟩ : Match).metadata = some md ∧ md.text_content = none)
      ∧ (∀ kw ∈ [("q".toList)], kw ≠ ([] : Str)) ∧ (1 : ℕ) ≤ 1)
    ∧ (rawText (⟨1/2, none⟩ : Match) = []
      ∧ countMatches [("q".toList)] (lower (rawText (⟨1/2, none⟩ : Match))) = 0
      ∧ (boostMatch [("q".toList)] (⟨1/2, none⟩ : Match)).score
          = min (⟨1/2, none⟩ : Match).score 1
      ∧ rerank [("q".toList)] [(⟨1/2, none⟩ : Match)] 1
          = [boostMatch [("q".toList)] (⟨1/2, none⟩ : Match)]) :=
  ⟨⟨Or.inl rfl, by decide, le_refl 1⟩,
   missing_text_safe [("q".toList)] ⟨1/2, none⟩ 1 (Or.inl rfl) (by decide)
     (le_refl 1)⟩

/-- C3 counterexample: for the query wellness, the token list and a trigger
rule both contribute the term wellness, and the boost counts it twice: the
boosted score differs from the one computed over the deduplicated keyword
collection, so the scoring effect is not that of the underlying set. -/
theorem extractKeywords_dedup_changes_score :
    (boostMatch (extractKeywords ("wellness".toList))
        (⟨1/2, some ⟨some ("wellness".toList), none, none⟩⟩ : Match)).score = 7/10
    ∧ (boostMatch ((extractKeywords ("wellness".toList)).dedup)
        (⟨1/2, some ⟨some ("wellness".toList), none, none⟩⟩ : Match)).score = 3/5
    ∧ countMatches (extractKeywords ("wellness".toList))
        (lower ("wellness".toList)) = 2
    ∧ countMatches ((extractKeywords ("wellness".toList)).dedup)
        (lower ("wellness".toList)) = 1 := by
  refine ⟨?_, ?_, ?_, ?_⟩ <;> decide

/-- C3 (amended): the boost is invariant under reordering of the keyword
list and additive over concatenation, so it depends only on the multiset of
extracted terms; multiplicity does count, so a term contributed both by
tokenization and by a trigger rule contributes twice. -/
theorem countMatches_perm_invariant (kws kws' : List Str) (m : Match)
    (h : List.Perm kws kws') :
    boostMatch kws m = boostMatch kws' m
    ∧ ∀ k1 k2 : List Str, countMatches (k1 ++ k2) (lower (rawText m))
        = countMatches k1 (lower (rawText m)) + countMatches k2 (lower (rawText m)) := by
  constructor
  · have hc : countMatches kws (lower (rawText m))
        = countMatches kws' (lower (rawText m)) := h.countP_eq _
    simp [boostMatch, hc]
  · intro k1 k2
    exact List.countP_append _ _ _

/-- C3 witness: permutation invariance at a concrete two-element keyword
list. -/
theorem countMatches_perm_invariant_witness :
    (List.Perm [("a".toList), ("b".toList)] [("b".toList), ("a".toList)])
    ∧ (boostMatch [("a".toList), ("b".toList)] (⟨1/2, none⟩ : Match)
        = boostMatch [("b".toList), ("a".toList)] (⟨1/2, none⟩ : Match)
      ∧ ∀ k1 k2 : List Str,
          countMatches (k1 ++ k2) (lower (rawText (⟨1/2, none⟩ : Match)))
            = countMatches k1 (lower (rawText (⟨1/2, none⟩ : Match)))
              + countMatches k2 (lower (rawText (⟨1/2, none⟩ : Match)))) :=
  ⟨List.Perm.swap _ _ _,
   countMatches_perm_invariant [("a".toList), ("b".toList)]
     [("b".toList), ("a".toList)] ⟨1/2, none⟩ (List.Perm.swap _ _ _)⟩

/-- C4 counterexample: applying the re-rank step to its own output re-applies
the keyword boost; at a concrete two-candidate list the scores and even the
order change on the second pass. -/
theorem rerank_not_idempotent :
    rerank [("k".toList)]
        (rerank [("k".toList)]
          [(⟨4/5, some ⟨some [], none, none⟩⟩ : Match),
           (⟨13/20, some ⟨some ("k".toList), none, none⟩⟩ : Match)] 5) 5
      ≠ rerank [("k".toList)]
          [(⟨4/5, some ⟨some [], none, none⟩⟩ : Match),
           (⟨13/20, some ⟨some ("k".toList), none, none⟩⟩ : Match)] 5 := by
  decide

/-- C4 (amended): the sort-and-truncate part of the re-rank step is
idempotent on its own output, but the boost is applied again on a second
pass; the full step is idempotent exactly on outputs every candidate of
which is left unchanged by a further boost (no keyword hit, or a score
already at the cap). -/
theorem rerank_idempotent_of_boost_fixed (keywords : List Str)
    (ms : List Match) (k : ℕ)
    (hfix : ∀ m ∈ rerank keywords ms k, boostMatch keywords m = m) :
    rerank keywords (rerank keywords ms k) k = rerank keywords ms k
    ∧ (sortStep ((sortStep (boostAll keywords ms)).take k)).take k
        = (sortStep (boostAll keywords ms)).take k := by
  have hsorted : List.Sorted scoreGE ((sortStep (boostAll keywords ms)).take k) :=
    List.Pairwise.sublist (List.take_sublist _ _)
      (List.sorted_insertionSort scoreGE _)
  have hsortfix : sortStep ((sortStep (boostAll keywords ms)).take k)
      = (sortStep (boostAll keywords ms)).take k :=
    List.Sorted.insertionSort_eq hsorted
  have htake : ((sortStep (boostAll keywords ms)).take k).take k
      = (sortStep (boostAll keywords ms)).take k := by
    refine List.take_of_length_le ?_
    simp [List.length_take]
  refine ⟨?_, by rw [hsortfix, htake]⟩
  show (sortStep (boostAll keywords (rerank keywords ms k))).take k
      = rerank keywords ms k
  rw [boostAll_eq_self hfix]
  show (sortStep ((sortStep (boostAll keywords ms)).take k)).take k
      = rerank keywords ms k
  rw [hsortfix, htake]
  rfl

/-- C4 witness: a singleton list whose element is unchanged by a second
boost is a fixpoint of the re-rank step. -/
theorem rerank_idempotent_of_boost_fixed_witness :
    (∀ m ∈ rerank [] [(⟨1/2, none⟩ : Match)] 1, boostMatch [] m = m)
    ∧ (rerank [] (rerank [] [(⟨1/2, none⟩ : Match)] 1) 1
        = rerank [] [(⟨1/2, none⟩ : Match)] 1
      ∧ (sortStep ((sortStep (boostAll [] [(⟨1/2, none⟩ : Match)])).take 1)).take 1
          = (sortStep (boostAll [] [(⟨1/2, none⟩ : Match)])).take 1) :=
  ⟨by decide, rerank_idempotent_of_boost_fixed [] [⟨1/2, none⟩] 1 (by decide)⟩

end AQLMiracosta
